import Mathlib

/-!
Shallow embedding of the K-DATAELECT telemetry import pipeline
(`src/services/geminiService.ts`): value normalisation (`parseValue`),
date/time resolution (`parseDateTime`), grid extraction and multi-file
merging (`parseExcelFiles`), hourly aggregation (`aggregateToHourly`) and
the export re-aggregation step of `generateCSV`.

Modelling conventions:
* JavaScript numbers are modelled as exact rationals (`ℚ`).
* A JavaScript `Date` stores an integer count of milliseconds since the
  Unix epoch; an *invalid* date (`NaN` time value) is modelled as `none`,
  so a date value is `Option Int`.  The host is assumed to run in the UTC
  zone (the repository performs no timezone conversion).
* Host-defined behaviour is passed in as parameters: `jsParse` models
  native `new Date(string)` parsing, `dsStr` models `Date#toString` on a
  date object found in a cell, and `now` models the clock read by the
  `new Date()` initialiser.
* `/` and `%` on `Int` are euclidean division and remainder, which agree
  with the floor division and nonnegative remainder of the ECMAScript date
  algorithms for the positive divisors used throughout; JavaScript's
  sign-of-dividend `%` on integers is `Int.tmod`.
-/

/-- A JavaScript `Date` value: `some t` for a valid date holding `t`
milliseconds since the Unix epoch, `none` for an Invalid Date. -/
abbrev JSDate := Option Int

/-- ECMAScript `ToIntegerOrInfinity` on a finite number: truncation toward
zero, as applied to a fractional millisecond count stored into a `Date`. -/
def truncQ (q : ℚ) : Int := if 0 ≤ q then ⌊q⌋ else ⌈q⌉

/-- ECMAScript `TimeClip` on an already integral time value: a date is
valid only within 8.64e15 ms of the epoch. -/
def jsClip (t : Int) : JSDate := if t.natAbs ≤ 8640000000000000 then some t else none

/-- `new Date(q)` for a (possibly fractional) finite millisecond count `q`:
`TimeClip` followed by truncation toward zero. -/
def jsNewDate (q : ℚ) : JSDate :=
  if |q| ≤ 8640000000000000 then some (truncQ q) else none

/-- Gregorian civil date from a day count since 1970-01-01 (the standard
`civil_from_days` algorithm, the counterpart of ECMAScript `YearFromTime`
and `MonthFromTime`).  Returns `(year, month, day)`, month in `1..12`. -/
def civilOfDays (z : Int) : Int × Int × Int :=
  let w := z + 719468
  let era := w / 146097
  let doe := w - 146097 * era
  let yoe := (doe - doe / 1460 + doe / 36524 - doe / 146096) / 365
  let y := yoe + era * 400
  let doy := doe - (365 * yoe + yoe / 4 - yoe / 100)
  let mp := (5 * doy + 2) / 153
  let d := doy - (153 * mp + 2) / 5 + 1
  let m := if mp < 10 then mp + 3 else mp - 9
  (if m ≤ 2 then y + 1 else y, m, d)

/-- Day count since 1970-01-01 of a Gregorian civil date (the standard
`days_from_civil` algorithm, the counterpart of ECMAScript `MakeDay` for
in-range months). -/
def daysFromCivil (y m d : Int) : Int :=
  let y2 := if m ≤ 2 then y - 1 else y
  let era := y2 / 400
  let yoe := y2 - 400 * era
  let mp := if 2 < m then m - 3 else m + 9
  let doy := (153 * mp + 2) / 5 + d - 1
  let doe := 365 * yoe + yoe / 4 - yoe / 100 + doy
  era * 146097 + doe - 719468

/-- ECMAScript `Day(t)`. -/
def dayNumber (t : Int) : Int := t / 86400000

/-- Midnight of the day containing `t` (the effect of `setHours(0,0,0,0)`). -/
def dayStart (t : Int) : Int := 86400000 * dayNumber t

/-- `Date#getFullYear` (UTC zone). -/
def yearOf (t : Int) : Int := (civilOfDays (dayNumber t)).1

/-- `Date#getMonth + 1` (UTC zone), in `1..12`. -/
def monthOf (t : Int) : Int := (civilOfDays (dayNumber t)).2.1

/-- The effect of `setSeconds(0, 0)`: zero the seconds and milliseconds
fields, i.e. truncate to the enclosing minute. -/
def truncMinute (t : Int) : Int := t - t % 60000

/-- The effect of `setMinutes(0, 0, 0)`: truncate to the enclosing hour. -/
def truncHour (t : Int) : Int := t - t % 3600000

/-- Midnight of the first day of the month containing `t` (the effect of
`setDate(1)` followed by `setHours(0,0,0,0)`). -/
def monthStart (t : Int) : Int := 86400000 * daysFromCivil (yearOf t) (monthOf t) 1

/-- ECMAScript `MakeDay(y, m, d)`: month is zero-based and arbitrary
integers are normalised by carrying into the year. -/
def jsMakeDay (y m d : Int) : Int :=
  daysFromCivil (y + m / 12) (m % 12 + 1) 1 + (d - 1)

/-- `new Date(y, m, d)`: a year in `0..99` is mapped to `1900 + y`, then
`MakeDay` and `TimeClip`; a `NaN` component gives an Invalid Date. -/
def jsNewDateYMD : Option Int → Option Int → Option Int → JSDate
  | some y, some m, some d =>
      let yr := if 0 ≤ y ∧ y ≤ 99 then 1900 + y else y
      jsClip (jsMakeDay yr m d * 86400000)
  | _, _, _ => none

/-- `new Date(y, m, d, h, mi)`. -/
def jsNewDateYMDHM :
    Option Int → Option Int → Option Int → Option Int → Option Int → JSDate
  | some y, some m, some d, some h, some mi =>
      let yr := if 0 ≤ y ∧ y ≤ 99 then 1900 + y else y
      jsClip (jsMakeDay yr m d * 86400000 + h * 3600000 + mi * 60000)
  | _, _, _, _, _ => none

/-- `Date#setHours(h, m, 0, 0)` (UTC zone): keep the day, replace the
time-of-day; `NaN` arguments make the date invalid. -/
def setHoursJS (t : Int) : Option Int → Option Int → JSDate
  | some h, some m => jsClip (dayStart t + h * 3600000 + m * 60000)
  | _, _ => none

/-- JavaScript `x % 1` (truncated remainder): the fractional part of `x`,
carrying the sign of `x`. -/
def jsMod1 (q : ℚ) : ℚ := q - (truncQ q : ℚ)

/-- JavaScript `Math.round` (round half toward positive infinity). -/
def jsRound (q : ℚ) : Int := ⌊q + 1 / 2⌋

/-- Value of a decimal digit string. -/
def digitsToNat (cs : List Char) : Nat := cs.foldl (fun n c => 10 * n + (c.toNat - 48)) 0

/-- JavaScript `parseInt(s)` with the default radix (the `0x` forms never
occur in this pipeline): skip leading whitespace, read an optional sign and
then the longest digit prefix; `NaN` (= `none`) when no digit is found. -/
def jsParseInt (s : String) : Option Int :=
  let scan : List Char → Option Nat := fun cs =>
    let ds := cs.takeWhile (·.isDigit)
    if ds.isEmpty then none else some (digitsToNat ds)
  match s.data.dropWhile (·.isWhitespace) with
  | '-' :: r => (scan r).map (fun n => -(n : Int))
  | '+' :: r => (scan r).map (fun n => (n : Int))
  | cs => (scan cs).map (fun n => (n : Int))

/-- JavaScript `parseFloat` as reachable from `parseValue`: its argument has
already been stripped to digits, dots and minus signs, so the leading
whitespace, `Infinity` and exponent forms of the full grammar never occur
and are omitted.  Reads an optional sign, an integer digit run and an
optional dot-prefixed fraction digit run; `NaN` (= `none`) when no digit is
read. -/
def parseFloatR (s : String) : Option ℚ :=
  let scan : List Char → Option ℚ := fun cs =>
    let ip := cs.takeWhile (·.isDigit)
    let rest := cs.dropWhile (·.isDigit)
    let fp := match rest with
      | '.' :: r => r.takeWhile (·.isDigit)
      | _ => []
    if ip.isEmpty && fp.isEmpty then none
    else some ((digitsToNat ip : ℚ) + (digitsToNat fp : ℚ) / (10 : ℚ) ^ fp.length)
  match s.data with
  | '-' :: r => (scan r).map (fun q => -q)
  | '+' :: r => scan r
  | cs => scan cs

/-- JavaScript `String#trim`. -/
def jsTrim (s : String) : String :=
  ⟨((s.data.dropWhile (·.isWhitespace)).reverse.dropWhile (·.isWhitespace)).reverse⟩

/-- JavaScript `String#replace(',', '.')`: a string pattern replaces only
the first occurrence. -/
def replaceFirstComma : List Char → List Char
  | [] => []
  | c :: cs => if c = ',' then '.' :: cs else c :: replaceFirstComma cs

/-- The characters kept by the `/[^0-9.-]/g` strip. -/
def keepChar (c : Char) : Bool := c.isDigit || c = '.' || c = '-'

/-- JavaScript `String#split` on a character-class regex: cut at every
matching character, keeping empty pieces. -/
def splitSep (p : Char → Bool) (s : String) : List String :=
  (s.data.splitOnP p).map List.asString

/-- A spreadsheet cell as handed to the importer: a number, a string, a
`Date` object, or blank (`undefined` / `null` / a missing cell). -/
inductive CellVal where
  | num (q : ℚ)
  | str (s : String)
  | dateObj (t : Int)
  | blank
deriving DecidableEq

/-- `parseValue` (src/services/geminiService.ts:85-96): numbers pass
through; strings are trimmed, the first comma becomes a dot, every
character that is not a digit, dot or minus is stripped, and the remainder
is parsed with `parseFloat`; every other input, and every parse failure,
yields `0`. -/
def parseValue : CellVal → ℚ
  | .num q => q
  | .str s =>
      let cleanStr := replaceFirstComma (jsTrim s).data
      let numberOnly := (cleanStr.filter keepChar).asString
      match parseFloatR numberOnly with
      | some q => q
      | none => 0
  | _ => 0

/-- `String(v)` for the cell values that can reach a string conversion
inside `parseDateTime`.  A number never reaches one (every branch tests
`typeof v === 'number'` first), so that arm is arbitrary. -/
def cellToString (dsStr : Int → String) : CellVal → String
  | .str s => s
  | .dateObj t => dsStr t
  | .blank => "undefined"
  | .num _ => ""

/-- The guard
`timeVal !== undefined && timeVal !== null && String(timeVal).trim() !== ''`;
`String` of a number or of a `Date` object is never blank. -/
def timePresent : CellVal → Bool
  | .blank => false
  | .str s => !(jsTrim s).isEmpty
  | _ => true

/-- Membership in the date-token separator class `/[\/\-\s]/`. -/
def dateSep (c : Char) : Bool := c = '/' || c = '-' || c.isWhitespace

/-- Membership in the date-time separator class `/[\/\-\s:]/`. -/
def dateTimeSep (c : Char) : Bool := dateSep c || c = ':'

/-- `NaN`-aware `>` on a `parseInt` result: `NaN > n` is false. -/
def optGT : Option Int → Int → Bool
  | some v, n => n < v
  | none, _ => false

/-- The date half of `parseDateTime`'s separate-time branch
(src/services/geminiService.ts:113-135): a numeric day-serial converts via
the 25569-day offset, a `Date` object passes through, and a string is split
on `/`, `-` or whitespace; with three or more tokens the
`DD/MM/YYYY` / `YYYY/MM/DD` heuristic picks whichever of the first and
third tokens exceeds 1000 as the year, otherwise `d` keeps its initialiser
`new Date()` (= `now`); with fewer than three tokens the string goes to
native parsing (`jsParse`). -/
def resolveDatePart (jsParse : String → JSDate) (dsStr : Int → String) (now : Int) :
    CellVal → JSDate
  | .num q => jsNewDate ((q - 25569) * 86400000)
  | .dateObj t => some t
  | v =>
      let dStr := jsTrim (cellToString dsStr v)
      let parts := splitSep dateSep dStr
      if 3 ≤ parts.length then
        let p1 := jsParseInt (parts.getD 0 "")
        let p2 := jsParseInt (parts.getD 1 "")
        let p3 := jsParseInt (parts.getD 2 "")
        if optGT p3 1000 then jsNewDateYMD p3 ((· - 1) <$> p2) p1
        else if optGT p1 1000 then jsNewDateYMD p1 ((· - 1) <$> p2) p3
        else some now
      else jsParse dStr

/-- The time half of the separate-time branch
(src/services/geminiService.ts:138-155): a numeric cell is a fraction of a
day converted through `Math.round(timeVal * 86400)` seconds; a textual cell
is split on `:` and its first two tokens `parseInt`ed; with fewer than two
tokens the initialisers `hours = 0`, `minutes = 0` are kept. -/
def timeHM (dsStr : Int → String) : CellVal → Option Int × Option Int
  | .num q =>
      let totalSeconds := jsRound (q * 86400)
      (some (totalSeconds / 3600), some (totalSeconds.tmod 3600 / 60))
  | v =>
      let tStr := jsTrim (cellToString dsStr v)
      let tParts := splitSep (fun c => c = ':') tStr
      if 2 ≤ tParts.length then (jsParseInt (tParts.getD 0 ""), jsParseInt (tParts.getD 1 ""))
      else (some 0, some 0)

/-- `parseDateTime` before its validity gate: the value of `finalDate` at
src/services/geminiService.ts:187.  `none` models `finalDate === null`,
`some none` a `finalDate` holding an Invalid Date. -/
def rawResolve (jsParse : String → JSDate) (dsStr : Int → String) (now : Int)
    (dateVal timeVal : CellVal) : Option JSDate :=
  if timePresent timeVal then
    match dateVal, timeVal with
    | .num d, .num t => some (jsNewDate (((⌊d⌋ : ℚ) + jsMod1 t - 25569) * 86400000))
    | dv, tv =>
        match resolveDatePart jsParse dsStr now dv with
        | some t0 => some (setHoursJS t0 (timeHM dsStr tv).1 (timeHM dsStr tv).2)
        | none => none
  else
    match dateVal with
    | .num q => some (jsNewDate ((q - 25569) * 86400000))
    | .str s =>
        match jsParse s with
        | some t => some (some t)
        | none =>
            let parts := splitSep dateTimeSep s
            if 5 ≤ parts.length then
              match jsNewDateYMDHM (jsParseInt (parts.getD 2 ""))
                  ((· - 1) <$> jsParseInt (parts.getD 1 "")) (jsParseInt (parts.getD 0 ""))
                  (jsParseInt (parts.getD 3 "")) (jsParseInt (parts.getD 4 "")) with
              | some t => some (some t)
              | none => none
            else none
    | _ => none

/-- `parseDateTime` (src/services/geminiService.ts:99-194): resolve the date
and optional time cells, then accept only a valid instant whose year
exceeds 1990, zeroing its seconds and milliseconds. -/
def parseDateTime (jsParse : String → JSDate) (dsStr : Int → String) (now : Int)
    (dateVal timeVal : CellVal) : Option Int :=
  match rawResolve jsParse dsStr now dateVal timeVal with
  | some (some t) => if 1990 < yearOf t then some (truncMinute t) else none
  | _ => none

/-- One telemetry reading (`TelemetryRow` in `types.ts`); the timestamp is
in epoch milliseconds. -/
structure TelemetryRow where
  timestamp : Int
  activePower : ℚ
  inductivePower : ℚ
  capacitivePower : ℚ
deriving DecidableEq

/-- A sheet reduced to a cell matrix (`sheet_to_json` with `header: 1`). -/
abbrev Grid := List (List CellVal)

/-- `ColumnMapping` from `types.ts`. -/
structure ColumnMapping where
  dateCol : Nat
  dateRow : Nat
  timeCol : Option Nat
  timeRow : Option Nat
  activeCol : Nat
  activeRow : Nat
  inductiveCol : Nat
  inductiveRow : Nat
  capacitiveCol : Nat
  capacitiveRow : Nat
  cpeRow : Option Nat
  cpeCol : Option Nat
deriving DecidableEq

/-- `(mapping.timeRow !== undefined) ? (mapping.timeRow - mapping.dateRow) : 0`. -/
def timeOffset (m : ColumnMapping) : Int :=
  match m.timeRow with
  | some tr => (tr : Int) - (m.dateRow : Int)
  | none => 0

def activeOffset (m : ColumnMapping) : Int := (m.activeRow : Int) - (m.dateRow : Int)

def inductiveOffset (m : ColumnMapping) : Int := (m.inductiveRow : Int) - (m.dateRow : Int)

def capacitiveOffset (m : ColumnMapping) : Int := (m.capacitiveRow : Int) - (m.dateRow : Int)

/-- `jsonData[i]` for a possibly negative or out-of-bounds index. -/
def gridRow? (g : Grid) (i : Int) : Option (List CellVal) :=
  if 0 ≤ i then g[i.toNat]? else none

/-- The date cell of data row `i`: `jsonData[i][mapping.dateCol]`. -/
def dateValAt (g : Grid) (m : ColumnMapping) (i : Nat) : CellVal :=
  (g.getD i []).getD m.dateCol .blank

/-- The time cell of data row `i`: `jsonData[i + timeOffset][mapping.timeCol]`
when a time column is mapped and the target row exists, else `undefined`. -/
def timeValAt (g : Grid) (m : ColumnMapping) (i : Nat) : CellVal :=
  match m.timeCol with
  | none => .blank
  | some tc =>
      match gridRow? g ((i : Int) + timeOffset m) with
      | some row => row.getD tc .blank
      | none => .blank

/-- Read one quantity for data row `i`: the cell sits `off` rows from the
date row; a missing target row leaves the initialiser `0`. -/
def quantityAt (g : Grid) (i : Nat) (off : Int) (col : Nat) : ℚ :=
  match gridRow? g ((i : Int) + off) with
  | some row => parseValue (row.getD col .blank)
  | none => 0

/-- The body of the extraction loop (src/services/geminiService.ts:234-263)
for one data row: blank rows and rows whose timestamp does not resolve are
skipped; a resolved row always emits a reading. -/
def extractRow (jsParse : String → JSDate) (dsStr : Int → String) (now : Int)
    (m : ColumnMapping) (g : Grid) (i : Nat) : Option TelemetryRow :=
  if (g.getD i []).isEmpty then none
  else
    match parseDateTime jsParse dsStr now (dateValAt g m i) (timeValAt g m i) with
    | some t =>
        some ⟨t, quantityAt g i (activeOffset m) m.activeCol,
          quantityAt g i (inductiveOffset m) m.inductiveCol,
          quantityAt g i (capacitiveOffset m) m.capacitiveCol⟩
    | none => none

/-- Extraction of one file's grid: data rows run from `mapping.dateRow` to
the end of the grid. -/
def extractFile (jsParse : String → JSDate) (dsStr : Int → String) (now : Int)
    (m : ColumnMapping) (g : Grid) : List TelemetryRow :=
  (List.range' m.dateRow (g.length - m.dateRow)).filterMap (extractRow jsParse dsStr now m g)

/-- The order of the final `allRows.sort((a, b) => a.timestamp - b.timestamp)`. -/
def tsLe (a b : TelemetryRow) : Prop := a.timestamp ≤ b.timestamp

instance : DecidableRel tsLe := fun a b => Int.decLe a.timestamp b.timestamp

instance : IsTotal TelemetryRow tsLe := ⟨fun a b => Int.le_total a.timestamp b.timestamp⟩

instance : IsTrans TelemetryRow tsLe := ⟨fun _ _ _ => Int.le_trans⟩

instance : IsRefl TelemetryRow tsLe := ⟨fun a => Int.le_refl a.timestamp⟩

/-- The data product of `parseExcelFiles`
(src/services/geminiService.ts:207-272): extract every file's grid in input
order, concatenate, and sort by timestamp ascending.  `Array#sort` is
required by ECMAScript to be stable, and a stable sort by a total preorder
is unique, so it is modelled by `List.insertionSort`, which is stable.  (The
CPE side-channel is a single fixed cell of the first file and is not part
of the data list.) -/
def parseExcelFilesData (jsParse : String → JSDate) (dsStr : Int → String) (now : Int)
    (m : ColumnMapping) (files : List Grid) : List TelemetryRow :=
  ((files.map (extractFile jsParse dsStr now m)).flatten).insertionSort tsLe

/-- `HourlyData` from `types.ts`; `hourLabel`, a locale rendering of the
timestamp, is omitted from the model. -/
structure HourlyData where
  timestamp : Int
  activeAvg : ℚ
  activeMax : ℚ
  activeMin : ℚ
  inductiveAvg : ℚ
  inductiveMax : ℚ
  inductiveMin : ℚ
  capacitiveAvg : ℚ
  capacitiveMax : ℚ
  capacitiveMin : ℚ
deriving DecidableEq

/-- `reduce((a, b) => a + b, 0)`. -/
def ratSum (l : List ℚ) : ℚ := l.foldl (· + ·) 0

/-- `Math.max(...l)` for the non-empty lists produced by grouping (on `[]`
JavaScript would give `-Infinity`, which never occurs here). -/
def jsMax : List ℚ → ℚ
  | [] => 0
  | a :: as => as.foldl max a

/-- `Math.min(...l)` for non-empty lists. -/
def jsMin : List ℚ → ℚ
  | [] => 0
  | a :: as => as.foldl min a

/-- Insert a grouping key: a JavaScript object acquires a new key at the
end of its key order, and an existing key keeps its position. -/
def insKey {α : Type} [DecidableEq α] (acc : List α) (k : α) : List α :=
  if k ∈ acc then acc else acc ++ [k]

/-- The keys of a JavaScript object used as a grouping table: the distinct
keys in first-occurrence order. -/
def firstOcc {α : Type} [DecidableEq α] (l : List α) : List α :=
  l.foldl insKey []

/-- Grouping keys of `l` under `key`, in first-occurrence order. -/
def bucketedKeys {α κ : Type} [DecidableEq κ] (key : α → κ) (l : List α) : List κ :=
  firstOcc (l.map key)

/-- The group of elements of `l` mapped to key `k`, in list order. -/
def bucket {α κ : Type} [DecidableEq κ] (key : α → κ) (l : List α) (k : κ) : List α :=
  l.filter (fun a => decide (key a = k))

/-- The grouping key of `aggregateToHourly`: the timestamp truncated to the
hour (the source keys the table by its ISO string, which is injective in
the truncated instant). -/
def hourKey (r : TelemetryRow) : Int := truncHour r.timestamp

/-- The record built for one hour bucket (the mapper inside
`aggregateToHourly`, src/services/geminiService.ts:287-313). -/
def hourRecord (rows : List TelemetryRow) (k : Int) : HourlyData :=
  let group := bucket hourKey rows k
  let actives := group.map (·.activePower)
  let inductives := group.map (·.inductivePower)
  let capacitives := group.map (·.capacitivePower)
  ⟨k, ratSum actives / (group.length : ℚ), jsMax actives, jsMin actives,
    ratSum inductives / (group.length : ℚ), jsMax inductives, jsMin inductives,
    ratSum capacitives / (group.length : ℚ), jsMax capacitives, jsMin capacitives⟩

/-- The order of the final `.sort((a, b) => a.timestamp - b.timestamp)`. -/
def hdLe (a b : HourlyData) : Prop := a.timestamp ≤ b.timestamp

instance : DecidableRel hdLe := fun a b => Int.decLe a.timestamp b.timestamp

instance : IsTotal HourlyData hdLe := ⟨fun a b => Int.le_total a.timestamp b.timestamp⟩

instance : IsTrans HourlyData hdLe := ⟨fun _ _ _ => Int.le_trans⟩

instance : IsRefl HourlyData hdLe := ⟨fun a => Int.le_refl a.timestamp⟩

/-- `aggregateToHourly` (src/services/geminiService.ts:275-314): group the
readings by hour-truncated timestamp, compute avg/max/min per quantity per
group, and sort the records by timestamp ascending. -/
def aggregateToHourly (rows : List TelemetryRow) : List HourlyData :=
  ((bucketedKeys hourKey rows).map (hourRecord rows)).insertionSort hdLe

/-- Export resolution (`ExportConfig` in src/services/geminiService.ts). -/
inductive Resolution where
  | hourly
  | daily
  | monthly
deriving DecidableEq

/-- `ExportConfig`; the `columns` record is flattened. -/
structure ExportConfig where
  resolution : Resolution
  splitDateTime : Bool
  colActive : Bool
  colInductive : Bool
  colCapacitive : Bool

/-- One row of `generateCSV`'s `processedData`, before string rendering.
The `date` field models the locale key string: `toLocaleDateString` for
hourly rows and daily keys (injective in the calendar day, modelled as
`(dayNumber, 0)`), and the month-year string for monthly keys (modelled as
`(year, month)`).  The three quantities are the numbers later formatted
into the CSV cells. -/
structure ProcRow where
  timestamp : Int
  date : Int × Int
  active : ℚ
  inductiveV : ℚ
  capacitive : ℚ
deriving DecidableEq

/-- The daily grouping key (`toLocaleDateString`). -/
def dailyKey (t : Int) : Int × Int := (dayNumber t, 0)

/-- The monthly grouping key (`toLocaleString` with month and year). -/
def monthlyKey (t : Int) : Int × Int := (yearOf t, monthOf t)

/-- Step 1 of `generateCSV` (src/services/geminiService.ts:326-376): hourly
resolution exports one row per record carrying its averages; daily and
monthly resolution group the records by day or month key, sum the averages
per quantity, and stamp the group with the first member's truncated
timestamp.  The later steps of `generateCSV` only render these numbers as
text. -/
def processedRows (res : Resolution) (data : List HourlyData) : List ProcRow :=
  match res with
  | .hourly =>
      data.map (fun d =>
        ⟨d.timestamp, dailyKey d.timestamp, d.activeAvg, d.inductiveAvg, d.capacitiveAvg⟩)
  | .daily =>
      (bucketedKeys (fun d => dailyKey d.timestamp) data).map (fun k =>
        let g := bucket (fun d => dailyKey d.timestamp) data k
        ⟨dayStart ((g.head?.map (·.timestamp)).getD 0), k,
          ratSum (g.map (·.activeAvg)), ratSum (g.map (·.inductiveAvg)),
          ratSum (g.map (·.capacitiveAvg))⟩)
  | .monthly =>
      (bucketedKeys (fun d => monthlyKey d.timestamp) data).map (fun k =>
        let g := bucket (fun d => monthlyKey d.timestamp) data k
        ⟨monthStart ((g.head?.map (·.timestamp)).getD 0), k,
          ratSum (g.map (·.activeAvg)), ratSum (g.map (·.inductiveAvg)),
          ratSum (g.map (·.capacitiveAvg))⟩)

/-- Modelled from the claim's words: re-sum exported rows by their exported
calendar-date key, per quantity, in first-occurrence order. -/
def resumByDay (rows : List ProcRow) : List ((Int × Int) × ℚ × ℚ × ℚ) :=
  (bucketedKeys ProcRow.date rows).map (fun k =>
    let g := bucket ProcRow.date rows k
    (k, ratSum (g.map (·.active)), ratSum (g.map (·.inductiveV)),
      ratSum (g.map (·.capacitive))))

/-! ### Helper lemmas -/

lemma truncQ_of_nonneg {q : ℚ} (h : 0 ≤ q) : truncQ q = ⌊q⌋ := if_pos h

/-- The civil year of a nonpositive day count is at most 1990 (in fact at
most 1971); days before the Unix epoch can never pass the year gate. -/
lemma civil_fst_le_1990 {z : Int} (hz : z ≤ 0) : (civilOfDays z).1 ≤ 1990 := by
  unfold civilOfDays
  dsimp only
  set w := z + 719468 with hw
  set era := w / 146097 with hera
  set doe := w - 146097 * era with hdoe
  set yoe := (doe - doe / 1460 + doe / 36524 - doe / 146096) / 365 with hyoe
  have hw1 : w ≤ 719468 := by omega
  have hmod : doe = w % 146097 := by rw [hdoe, hera, Int.emod_def]
  have hera4 : era ≤ 4 := by
    have h1 : w / 146097 ≤ 719468 / 146097 := Int.ediv_le_ediv (by norm_num) hw1
    have h2 : (719468 : Int) / 146097 = 4 := by decide
    omega
  have hdoe0 : 0 ≤ doe := by
    rw [hmod]; exact Int.emod_nonneg w (by norm_num)
  have hdoeA : doe ≤ 146096 := by
    have := Int.emod_lt_of_pos w (show (0 : Int) < 146097 by norm_num)
    omega
  have h1460 : 0 ≤ doe / 1460 := Int.ediv_nonneg hdoe0 (by norm_num)
  have h146096 : 0 ≤ doe / 146096 := Int.ediv_nonneg hdoe0 (by norm_num)
  have key : yoe + era * 400 ≤ 1970 := by
    by_cases h4 : era = 4
    · have hdoeB : doe ≤ 135080 := by omega
      have h36524 : doe / 36524 ≤ 3 := by
        have ha : doe / 36524 ≤ 135080 / 36524 := Int.ediv_le_ediv (by norm_num) hdoeB
        have hb : (135080 : Int) / 36524 = 3 := by decide
        omega
      have hnum : doe - doe / 1460 + doe / 36524 - doe / 146096 ≤ 135083 := by omega
      have hyoeB : yoe ≤ 370 := by
        rw [hyoe]
        have ha := Int.ediv_le_ediv (show (0 : Int) < 365 by norm_num) hnum
        have hb : (135083 : Int) / 365 = 370 := by decide
        omega
      omega
    · have hera3 : era ≤ 3 := by omega
      have h36524 : doe / 36524 ≤ 4 := by
        have ha : doe / 36524 ≤ 146096 / 36524 := Int.ediv_le_ediv (by norm_num) hdoeA
        have hb : (146096 : Int) / 36524 = 4 := by decide
        omega
      have hnum : doe - doe / 1460 + doe / 36524 - doe / 146096 ≤ 146100 := by omega
      have hyoeB : yoe ≤ 400 := by
        rw [hyoe]
        have ha := Int.ediv_le_ediv (show (0 : Int) < 365 by norm_num) hnum
        have hb : (146100 : Int) / 365 = 400 := by decide
        omega
      omega
  split <;> omega

lemma yearOf_le_1990_of_nonpos {t : Int} (ht : t ≤ 0) : yearOf t ≤ 1990 := by
  apply civil_fst_le_1990
  unfold dayNumber
  have h1 : t / 86400000 ≤ 0 / 86400000 := Int.ediv_le_ediv (by norm_num) ht
  simpa using h1

/-- Floor of a rational divided by 60000 is euclidean division of its
floor. -/
lemma floor_div_60000 (q : ℚ) : ⌊q / 60000⌋ = ⌊q⌋ / 60000 := by
  have h60 : (0 : ℚ) < 60000 := by norm_num
  have hd1 := Int.emod_nonneg ⌊q⌋ (show (60000 : ℤ) ≠ 0 by norm_num)
  have hd2 := Int.emod_lt_of_pos ⌊q⌋ (show (0 : ℤ) < 60000 by norm_num)
  have hdef : ⌊q⌋ % 60000 = ⌊q⌋ - 60000 * (⌊q⌋ / 60000) := Int.emod_def _ _
  rw [Int.floor_eq_iff]
  constructor
  · rw [le_div_iff₀ h60]
    have hle : ((⌊q⌋ / 60000) * 60000 : ℤ) ≤ ⌊q⌋ := by omega
    calc ((⌊q⌋ / 60000 : ℤ) : ℚ) * 60000 = ((⌊q⌋ / 60000 * 60000 : ℤ) : ℚ) := by
          push_cast
          ring
      _ ≤ (⌊q⌋ : ℚ) := by exact_mod_cast hle
      _ ≤ q := Int.floor_le q
  · rw [div_lt_iff₀ h60]
    have hlt : ⌊q⌋ + 1 ≤ (⌊q⌋ / 60000 + 1) * 60000 := by omega
    calc q < (⌊q⌋ : ℚ) + 1 := Int.lt_floor_add_one q
      _ ≤ (((⌊q⌋ / 60000 + 1) * 60000 : ℤ) : ℚ) := by exact_mod_cast hlt
      _ = ((⌊q⌋ / 60000 : ℤ) : ℚ) * 60000 + 1 * 60000 := by
          push_cast
          ring
      _ = ((⌊q⌋ / 60000 : ℤ) + 1 : ℚ) * 60000 := by ring

lemma truncMinute_floor (q : ℚ) :
    truncMinute ⌊q⌋ = 60000 * ⌊q / 60000⌋ := by
  unfold truncMinute
  have h2 : ⌊q / (60000 : ℚ)⌋ = ⌊q⌋ / 60000 := floor_div_60000 q
  have h3 : ⌊q⌋ % 60000 = ⌊q⌋ - 60000 * (⌊q⌋ / 60000) := Int.emod_def _ _
  omega

/-- Unfolding of the validity gate of `parseDateTime`. -/
lemma parseDateTime_eq_some_iff (jsParse : String → JSDate) (dsStr : Int → String)
    (now : Int) (dateVal timeVal : CellVal) (u : Int) :
    parseDateTime jsParse dsStr now dateVal timeVal = some u ↔
      ∃ t, rawResolve jsParse dsStr now dateVal timeVal = some (some t) ∧
        1990 < yearOf t ∧ u = truncMinute t := by
  unfold parseDateTime
  cases hr : rawResolve jsParse dsStr now dateVal timeVal with
  | none => simp
  | some jd =>
    cases jd with
    | none => simp
    | some t => by_cases hy : 1990 < yearOf t <;> simp [hy, eq_comm]

/-- Claim C9: with numeric date and time cells, the resolver uses
`Math.floor(dateVal) + (timeVal % 1)`, i.e. it behaves exactly as if the
single day-serial `⌊d⌋ + (t mod 1)` had been supplied alone. -/
theorem c9_floor_plus_frac (jsParse : String → JSDate) (dsStr : Int → String) (now : Int)
    (d t : ℚ) :
    parseDateTime jsParse dsStr now (.num d) (.num t) =
      parseDateTime jsParse dsStr now (.num ((⌊d⌋ : ℚ) + jsMod1 t)) .blank := rfl

/-- Claim C5: the value normalizer returns numeric input unchanged; a string
is trimmed, its first comma turned into a dot, stripped to digits, dots and
minus signs, and parsed, with `0` on parse failure; every non-number,
non-string input (and in particular `"abc"`) normalizes to `0` rather than
raising an error. -/
theorem c5_value_normalizer :
    (∀ q, parseValue (.num q) = q) ∧
    (∀ t, parseValue (.dateObj t) = 0) ∧
    parseValue .blank = 0 ∧
    (∀ s q, parseFloatR ((replaceFirstComma (jsTrim s).data).filter keepChar).asString = some q →
      parseValue (.str s) = q) ∧
    (∀ s, parseFloatR ((replaceFirstComma (jsTrim s).data).filter keepChar).asString = none →
      parseValue (.str s) = 0) ∧
    parseValue (.str "abc") = 0 := by
  refine ⟨fun _ => rfl, fun _ => rfl, rfl, ?_, ?_, by decide⟩
  · intro s q h
    simp [parseValue, h]
  · intro s h
    simp [parseValue, h]

section

attribute [local semireducible] Rat.add Rat.mul Rat.sub Rat.inv

theorem c5_value_normalizer_witness :
    parseValue (.str " 12,5 kW ") = 25 / 2 ∧ parseValue (.str "abc") = 0 :=
  ⟨c5_value_normalizer.2.2.2.1 " 12,5 kW " (25 / 2) (by decide),
    c5_value_normalizer.2.2.2.2.2⟩

end

/-- Claim C7: the resolver returns an instant exactly when `finalDate` is a
valid calendar instant whose year exceeds 1990, and whenever it reports
absent the extractor emits no reading for that row. -/
theorem c7_validity_gate (jsParse : String → JSDate) (dsStr : Int → String) (now : Int) :
    (∀ dateVal timeVal,
      (∃ u, parseDateTime jsParse dsStr now dateVal timeVal = some u) ↔
        ∃ t, rawResolve jsParse dsStr now dateVal timeVal = some (some t) ∧
          1990 < yearOf t) ∧
    (∀ (m : ColumnMapping) (g : Grid) (i : Nat),
      parseDateTime jsParse dsStr now (dateValAt g m i) (timeValAt g m i) = none →
      extractRow jsParse dsStr now m g i = none) := by
  constructor
  · intro dv tv
    constructor
    · rintro ⟨u, hu⟩
      obtain ⟨t, ht, hy, _⟩ := (parseDateTime_eq_some_iff jsParse dsStr now dv tv u).1 hu
      exact ⟨t, ht, hy⟩
    · rintro ⟨t, ht, hy⟩
      exact ⟨truncMinute t,
        (parseDateTime_eq_some_iff jsParse dsStr now dv tv (truncMinute t)).2 ⟨t, ht, hy, rfl⟩⟩
  · intro m g i h
    unfold extractRow
    by_cases he : (g.getD i []).isEmpty <;> simp [he, h]

section

attribute [local semireducible] Rat.add Rat.mul Rat.sub Rat.inv

theorem c7_validity_gate_witness :
    extractRow (fun _ => none) (fun _ => "") 0
      ⟨0, 0, none, none, 0, 0, 0, 0, 0, 0, none, none⟩ [[CellVal.str "x"]] 0 = none :=
  (c7_validity_gate (fun _ => none) (fun _ => "") 0).2
    ⟨0, 0, none, none, 0, 0, 0, 0, 0, 0, none, none⟩ [[CellVal.str "x"]] 0 (by decide)

end

/-- Claim C8: for each of the three quantities, when its target row
(`i + (fieldRow − dateRow)`) is out of the grid bounds, that quantity is
recorded as `0`; the reading is still emitted regardless (and belongs to
the file's extraction when `i` is a data row). -/
theorem c8_missing_row_zero (jsParse : String → JSDate) (dsStr : Int → String) (now : Int)
    (m : ColumnMapping) (g : Grid) (i : Nat) (t : Int)
    (h1 : (g.getD i []).isEmpty = false)
    (h2 : parseDateTime jsParse dsStr now (dateValAt g m i) (timeValAt g m i) = some t) :
    ∃ r, extractRow jsParse dsStr now m g i = some r ∧ r.timestamp = t ∧
      (gridRow? g ((i : Int) + activeOffset m) = none → r.activePower = 0) ∧
      (gridRow? g ((i : Int) + inductiveOffset m) = none → r.inductivePower = 0) ∧
      (gridRow? g ((i : Int) + capacitiveOffset m) = none → r.capacitivePower = 0) ∧
      (m.dateRow ≤ i → i < g.length → r ∈ extractFile jsParse dsStr now m g) := by
  have hrow : extractRow jsParse dsStr now m g i =
      some ⟨t, quantityAt g i (activeOffset m) m.activeCol,
        quantityAt g i (inductiveOffset m) m.inductiveCol,
        quantityAt g i (capacitiveOffset m) m.capacitiveCol⟩ := by
    unfold extractRow
    rw [h1]
    simp [h2]
  refine ⟨_, hrow, rfl, ?_, ?_, ?_, fun hlo hhi => ?_⟩
  · intro h3
    show quantityAt g i (activeOffset m) m.activeCol = 0
    unfold quantityAt
    rw [h3]
  · intro h3
    show quantityAt g i (inductiveOffset m) m.inductiveCol = 0
    unfold quantityAt
    rw [h3]
  · intro h3
    show quantityAt g i (capacitiveOffset m) m.capacitiveCol = 0
    unfold quantityAt
    rw [h3]
  · unfold extractFile
    refine List.mem_filterMap.mpr ⟨i, ?_, hrow⟩
    simp only [List.mem_range'_1]
    omega

section

attribute [local semireducible] Rat.add Rat.mul Rat.sub Rat.inv

theorem c8_missing_row_zero_witness :
    ∃ r, extractRow (fun _ => none) (fun _ => "") 0
        ⟨0, 0, none, none, 0, 5, 0, 7, 0, 9, none, none⟩ [[CellVal.num 45000]] 0 = some r ∧
      r.timestamp = 1678838400000 ∧
      (gridRow? [[CellVal.num 45000]]
          ((0 : Int) + activeOffset ⟨0, 0, none, none, 0, 5, 0, 7, 0, 9, none, none⟩) = none →
        r.activePower = 0) ∧
      (gridRow? [[CellVal.num 45000]]
          ((0 : Int) + inductiveOffset ⟨0, 0, none, none, 0, 5, 0, 7, 0, 9, none, none⟩) = none →
        r.inductivePower = 0) ∧
      (gridRow? [[CellVal.num 45000]]
          ((0 : Int) + capacitiveOffset ⟨0, 0, none, none, 0, 5, 0, 7, 0, 9, none, none⟩) = none →
        r.capacitivePower = 0) ∧
      ((⟨0, 0, none, none, 0, 5, 0, 7, 0, 9, none, none⟩ : ColumnMapping).dateRow ≤ 0 →
        0 < ([[CellVal.num 45000]] : Grid).length →
        r ∈ extractFile (fun _ => none) (fun _ => "") 0
          ⟨0, 0, none, none, 0, 5, 0, 7, 0, 9, none, none⟩ [[CellVal.num 45000]]) :=
  c8_missing_row_zero (fun _ => none) (fun _ => "") 0
    ⟨0, 0, none, none, 0, 5, 0, 7, 0, 9, none, none⟩ [[CellVal.num 45000]] 0 1678838400000
    (by decide) (by decide)

end

/-- Claim C1: for a numeric date cell with no separate time cell, the
resolver yields the instant `epoch + (serial − 25569) days` with seconds
and sub-seconds zeroed, i.e. the exact instant truncated to the minute —
for every serial whose converted instant is a valid date with year after
1990. -/
theorem c1_numeric_serial (jsParse : String → JSDate) (dsStr : Int → String) (now : Int)
    (s : ℚ) (tv : CellVal) (h0 : timePresent tv = false)
    (h1 : |(s - 25569) * 86400000| ≤ 8640000000000000)
    (h2 : 1990 < yearOf (truncQ ((s - 25569) * 86400000))) :
    parseDateTime jsParse dsStr now (.num s) tv =
      some (60000 * ⌊(s - 25569) * 86400000 / 60000⌋) ∧
    (60000 * ⌊(s - 25569) * 86400000 / 60000⌋) % 60000 = 0 := by
  set q : ℚ := (s - 25569) * 86400000 with hq
  have hq0 : 0 ≤ q := by
    by_contra hneg
    push_neg at hneg
    have hle : truncQ q ≤ 0 := by
      unfold truncQ
      rw [if_neg (not_le.mpr hneg)]
      exact Int.ceil_le.mpr (by exact_mod_cast le_of_lt hneg)
    exact absurd h2 (not_lt.mpr (yearOf_le_1990_of_nonpos hle))
  have hraw : rawResolve jsParse dsStr now (.num s) tv = some (some (truncQ q)) := by
    unfold rawResolve
    simp [h0, jsNewDate, h1]
  constructor
  · rw [parseDateTime_eq_some_iff]
    refine ⟨truncQ q, hraw, h2, ?_⟩
    rw [truncQ_of_nonneg hq0, truncMinute_floor q]
  · exact Int.mul_emod_right _ _

section

attribute [local semireducible] Rat.add Rat.mul Rat.sub Rat.inv

theorem c1_numeric_serial_witness :
    parseDateTime (fun _ => none) (fun _ => "") 0 (.num 45000) .blank =
      some (60000 * ⌊((45000 : ℚ) - 25569) * 86400000 / 60000⌋) ∧
    (60000 * ⌊((45000 : ℚ) - 25569) * 86400000 / 60000⌋) % 60000 = 0 :=
  c1_numeric_serial (fun _ => none) (fun _ => "") 0 45000 .blank (by decide) (by decide)
    (by decide)

end

lemma yearOf_dayStart (t : Int) : yearOf (dayStart t) = yearOf t := by
  unfold yearOf dayStart dayNumber
  rw [Int.mul_ediv_cancel_left _ (by norm_num : (86400000 : ℤ) ≠ 0)]

/-- Claim C10: a present, non-numeric time cell without a `:` separator does
not make the row absent — the `hours = 0`, `minutes = 0` initialisers are
kept, so the row resolves to the date part at exactly 00:00 whenever the
date part resolves to a valid instant with year after 1990. -/
theorem c10_no_colon_time (jsParse : String → JSDate) (dsStr : Int → String) (now : Int)
    (dv : CellVal) (s : String) (t0 : Int)
    (h1 : (jsTrim s).isEmpty = false)
    (h2 : (splitSep (fun c => c = ':') (jsTrim s)).length < 2)
    (h3 : resolveDatePart jsParse dsStr now dv = some t0)
    (h4 : 0 ≤ t0) (h5 : t0 ≤ 8640000000000000)
    (h6 : 1990 < yearOf t0) :
    parseDateTime jsParse dsStr now dv (.str s) = some (dayStart t0) ∧
    dayStart t0 % 86400000 = 0 := by
  have hp : timePresent (.str s) = true := by
    simp [timePresent, h1]
  have hhm : timeHM dsStr (.str s) = (some 0, some 0) := by
    simp only [timeHM, cellToString]
    rw [if_neg (by omega)]
  have hsh : setHoursJS t0 (some 0) (some 0) = some (dayStart t0) := by
    show jsClip (dayStart t0 + 0 * 3600000 + 0 * 60000) = some (dayStart t0)
    have he : dayStart t0 + 0 * 3600000 + 0 * 60000 = dayStart t0 := by ring
    rw [he]
    unfold jsClip
    rw [if_pos]
    unfold dayStart dayNumber
    omega
  have hh1 : (timeHM dsStr (.str s)).1 = some 0 := by rw [hhm]
  have hh2 : (timeHM dsStr (.str s)).2 = some 0 := by rw [hhm]
  have hraw : rawResolve jsParse dsStr now dv (.str s) = some (some (dayStart t0)) := by
    cases dv <;>
      · unfold rawResolve
        rw [hp, if_pos rfl]
        dsimp only
        rw [h3]
        dsimp only
        rw [hh1, hh2, hsh]
  constructor
  · rw [parseDateTime_eq_some_iff]
    refine ⟨dayStart t0, hraw, ?_, ?_⟩
    · rw [yearOf_dayStart]
      exact h6
    · unfold truncMinute dayStart dayNumber
      omega
  · unfold dayStart dayNumber
    omega

section

attribute [local semireducible] Rat.add Rat.mul Rat.sub Rat.inv

theorem c10_no_colon_time_witness :
    parseDateTime (fun _ => none) (fun _ => "") 0 (.num 45000) (.str "noon") =
      some (dayStart 1678838400000) ∧
    dayStart 1678838400000 % 86400000 = 0 :=
  c10_no_colon_time (fun _ => none) (fun _ => "") 0 (.num 45000) "noon" 1678838400000
    (by decide) (by decide) (by decide) (by decide) (by decide) (by decide)

end

/-! ### Fold extrema and sums -/

lemma le_foldl_max (l : List ℚ) (b : ℚ) : b ≤ l.foldl max b := by
  induction l generalizing b with
  | nil => exact le_refl b
  | cons x xs ih => exact le_trans (le_max_left b x) (ih (max b x))

lemma mem_le_foldl_max (l : List ℚ) (b x : ℚ) (hx : x ∈ l) : x ≤ l.foldl max b := by
  induction l generalizing b with
  | nil => cases hx
  | cons y ys ih =>
    rw [List.foldl_cons]
    rcases List.mem_cons.mp hx with rfl | h
    · exact le_trans (le_max_right b x) (le_foldl_max ys (max b x))
    · exact ih (max b y) h

lemma jsMax_ge (l : List ℚ) (x : ℚ) (hx : x ∈ l) : x ≤ jsMax l := by
  cases l with
  | nil => cases hx
  | cons a as =>
    show x ≤ as.foldl max a
    rcases List.mem_cons.mp hx with rfl | h
    · exact le_foldl_max as x
    · exact mem_le_foldl_max as a x h

lemma foldl_min_le (l : List ℚ) (b : ℚ) : l.foldl min b ≤ b := by
  induction l generalizing b with
  | nil => exact le_refl b
  | cons x xs ih => exact le_trans (ih (min b x)) (min_le_left b x)

lemma foldl_min_le_mem (l : List ℚ) (b x : ℚ) (hx : x ∈ l) : l.foldl min b ≤ x := by
  induction l generalizing b with
  | nil => cases hx
  | cons y ys ih =>
    rw [List.foldl_cons]
    rcases List.mem_cons.mp hx with rfl | h
    · exact le_trans (foldl_min_le ys (min b x)) (min_le_right b x)
    · exact ih (min b y) h

lemma jsMin_le (l : List ℚ) (x : ℚ) (hx : x ∈ l) : jsMin l ≤ x := by
  cases l with
  | nil => cases hx
  | cons a as =>
    show as.foldl min a ≤ x
    rcases List.mem_cons.mp hx with rfl | h
    · exact foldl_min_le as x
    · exact foldl_min_le_mem as a x h

lemma foldl_add_shift (l : List ℚ) (a : ℚ) : l.foldl (· + ·) a = a + l.sum := by
  induction l generalizing a with
  | nil => simp
  | cons x xs ih =>
    rw [List.foldl_cons, ih, List.sum_cons]
    ring

lemma ratSum_eq_sum (l : List ℚ) : ratSum l = l.sum := by
  unfold ratSum
  rw [foldl_add_shift]
  ring

lemma jsMin_le_avg_and_avg_le_jsMax (l : List ℚ) (h : l ≠ []) :
    jsMin l ≤ ratSum l / (l.length : ℚ) ∧ ratSum l / (l.length : ℚ) ≤ jsMax l := by
  have hlen : (0 : ℚ) < (l.length : ℚ) := by
    exact_mod_cast List.length_pos.mpr h
  have hub : ratSum l ≤ (l.length : ℚ) * jsMax l := by
    rw [ratSum_eq_sum]
    have hs := List.sum_le_card_nsmul l (jsMax l) (fun x hx => jsMax_ge l x hx)
    simpa [nsmul_eq_mul] using hs
  have hlb : (l.length : ℚ) * jsMin l ≤ ratSum l := by
    rw [ratSum_eq_sum]
    have hs := List.card_nsmul_le_sum l (jsMin l) (fun x hx => jsMin_le l x hx)
    simpa [nsmul_eq_mul] using hs
  constructor
  · rw [le_div_iff₀ hlen]
    linarith
  · rw [div_le_iff₀ hlen]
    linarith

/-! ### Grouping lemmas -/

lemma mem_insKey {α : Type} [DecidableEq α] (acc : List α) (k x : α) :
    x ∈ insKey acc k ↔ x ∈ acc ∨ x = k := by
  unfold insKey
  by_cases hk : k ∈ acc
  · rw [if_pos hk]
    constructor
    · exact Or.inl
    · rintro (hx | rfl)
      · exact hx
      · exact hk
  · rw [if_neg hk]
    simp [List.mem_append]

lemma mem_foldl_insKey {α : Type} [DecidableEq α] (l acc : List α) (x : α) :
    x ∈ l.foldl insKey acc ↔ x ∈ acc ∨ x ∈ l := by
  induction l generalizing acc with
  | nil => simp
  | cons k ks ih =>
    rw [List.foldl_cons, ih, mem_insKey, List.mem_cons]
    tauto

lemma mem_firstOcc {α : Type} [DecidableEq α] (l : List α) (x : α) :
    x ∈ firstOcc l ↔ x ∈ l := by
  unfold firstOcc
  rw [mem_foldl_insKey]
  simp

lemma foldl_insKey_eq_append {α : Type} [DecidableEq α] (l acc : List α)
    (hd : ∀ x ∈ l, x ∉ acc) (h : l.Nodup) : l.foldl insKey acc = acc ++ l := by
  induction l generalizing acc with
  | nil => simp
  | cons k ks ih =>
    rw [List.foldl_cons]
    have hk : insKey acc k = acc ++ [k] := if_neg (hd k (List.mem_cons_self k ks))
    rw [hk, ih (acc ++ [k])]
    · simp
    · intro x hx
      rw [List.mem_append]
      rintro (hxa | hxk)
      · exact hd x (List.mem_cons_of_mem k hx) hxa
      · rcases List.mem_singleton.mp hxk with rfl
        exact (List.nodup_cons.mp h).1 hx
    · exact (List.nodup_cons.mp h).2

lemma firstOcc_eq_self {α : Type} [DecidableEq α] (l : List α) (h : l.Nodup) :
    firstOcc l = l := by
  unfold firstOcc
  rw [foldl_insKey_eq_append l [] (by simp) h]
  simp

lemma filter_key_eq_single {α κ : Type} [DecidableEq κ] (key : α → κ) (l : List α)
    (h : (l.map key).Nodup) (a : α) (ha : a ∈ l) :
    l.filter (fun x => decide (key x = key a)) = [a] := by
  induction l with
  | nil => cases ha
  | cons b bs ih =>
    rw [List.map_cons] at h
    have hnd := List.nodup_cons.mp h
    rw [List.filter_cons]
    rcases List.mem_cons.mp ha with rfl | hmem
    · rw [if_pos (by simp)]
      have hnil : bs.filter (fun x => decide (key x = key a)) = [] := by
        apply List.filter_eq_nil_iff.mpr
        intro x hx
        simp only [decide_eq_true_eq]
        intro hkey
        apply hnd.1
        rw [← hkey]
        exact List.mem_map_of_mem key hx
      rw [hnil]
    · have hkb : key b ≠ key a := by
        intro hkey
        apply hnd.1
        rw [hkey]
        exact List.mem_map_of_mem key hmem
      rw [if_neg (by simp [hkb])]
      exact ih hnd.2 hmem

/-- Claim C2: every hourly record satisfies `min ≤ avg ≤ max` for each of
the three quantities, the average being the arithmetic mean of the bucket's
values and min/max their extrema. -/
theorem c2_min_avg_max (rows : List TelemetryRow) (h : HourlyData)
    (hmem : h ∈ aggregateToHourly rows) :
    h.activeMin ≤ h.activeAvg ∧ h.activeAvg ≤ h.activeMax ∧
    h.inductiveMin ≤ h.inductiveAvg ∧ h.inductiveAvg ≤ h.inductiveMax ∧
    h.capacitiveMin ≤ h.capacitiveAvg ∧ h.capacitiveAvg ≤ h.capacitiveMax := by
  unfold aggregateToHourly at hmem
  rw [List.mem_insertionSort] at hmem
  obtain ⟨k, hk, rfl⟩ := List.mem_map.mp hmem
  have hne : bucket hourKey rows k ≠ [] := by
    unfold bucketedKeys at hk
    rw [mem_firstOcc] at hk
    obtain ⟨r, hr, hkey⟩ := List.mem_map.mp hk
    intro hnil
    have hrb : r ∈ bucket hourKey rows k := List.mem_filter.mpr ⟨hr, by simp [hkey]⟩
    rw [hnil] at hrb
    cases hrb
  unfold hourRecord
  have hlen : ∀ f : TelemetryRow → ℚ,
      ((bucket hourKey rows k).map f).length = (bucket hourKey rows k).length :=
    fun f => List.length_map _ f
  have hmap : ∀ f : TelemetryRow → ℚ, (bucket hourKey rows k).map f ≠ [] := by
    intro f hnil
    exact hne (List.map_eq_nil_iff.mp hnil)
  have ha := jsMin_le_avg_and_avg_le_jsMax _ (hmap (·.activePower))
  have hi := jsMin_le_avg_and_avg_le_jsMax _ (hmap (·.inductivePower))
  have hc := jsMin_le_avg_and_avg_le_jsMax _ (hmap (·.capacitivePower))
  rw [hlen] at ha hi hc
  exact ⟨ha.1, ha.2, hi.1, hi.2, hc.1, hc.2⟩

section

attribute [local semireducible] Rat.add Rat.mul Rat.sub Rat.inv

theorem c2_min_avg_max_witness :
    (⟨0, 15, 20, 10, 2, 3, 1, 3, 5, 1⟩ : HourlyData) ∈
      aggregateToHourly [⟨0, 10, 1, 5⟩, ⟨1800000, 20, 3, 1⟩] ∧
    ((10 : ℚ) ≤ 15 ∧ (15 : ℚ) ≤ 20 ∧ (1 : ℚ) ≤ 2 ∧ (2 : ℚ) ≤ 3 ∧
      (1 : ℚ) ≤ 3 ∧ (3 : ℚ) ≤ 5) :=
  ⟨by decide,
    c2_min_avg_max [⟨0, 10, 1, 5⟩, ⟨1800000, 20, 3, 1⟩] ⟨0, 15, 20, 10, 2, 3, 1, 3, 5, 1⟩
      (by decide)⟩


end
/-! ### Bucket fusion lemmas -/

lemma bucketedKeys_map {α β κ : Type} [DecidableEq κ] (key : β → κ) (f : α → β)
    (l : List α) :
    bucketedKeys key (l.map f) = bucketedKeys (fun a => key (f a)) l := by
  unfold bucketedKeys
  rw [List.map_map]
  rfl

lemma bucket_map {α β κ : Type} [DecidableEq κ] (key : β → κ) (f : α → β)
    (l : List α) (k : κ) :
    bucket key (l.map f) k = (bucket (fun a => key (f a)) l k).map f := by
  unfold bucket
  rw [List.filter_map]
  rfl

/-- Claim C3: exporting at hourly resolution and re-summing the exported
per-hour values by calendar day yields exactly the daily export of the same
records — per day key, each quantity's daily value is the sum of that day's
hourly averages. -/
theorem c3_hourly_daily_roundtrip (data : List HourlyData) :
    resumByDay (processedRows .hourly data) =
      (processedRows .daily data).map
        (fun r => (r.date, r.active, r.inductiveV, r.capacitive)) := by
  unfold resumByDay processedRows
  dsimp only
  rw [bucketedKeys_map, List.map_map]
  apply List.map_congr_left
  intro k hk
  simp only [Function.comp, bucket_map, List.map_map]
  rfl

/-! ### Hour-aligned idempotence (C4) -/

/-- The hourly record carrying a single reading's values as avg, max and
min alike (the claim's "one record per reading with avg = min = max"). -/
def rowToRecord (r : TelemetryRow) : HourlyData :=
  ⟨r.timestamp, r.activePower, r.activePower, r.activePower,
    r.inductivePower, r.inductivePower, r.inductivePower,
    r.capacitivePower, r.capacitivePower, r.capacitivePower⟩

/-- A record's values re-read as a reading (the claim's "aggregating those
records' values again"). -/
def recordToRow (h : HourlyData) : TelemetryRow :=
  ⟨h.timestamp, h.activeAvg, h.inductiveAvg, h.capacitiveAvg⟩

lemma recordToRow_rowToRecord (r : TelemetryRow) : recordToRow (rowToRecord r) = r := rfl

/-- On hour-aligned input with pairwise distinct timestamps, aggregation is
the stable sort of the per-reading singleton records. -/
lemma aggregate_aligned (rows : List TelemetryRow)
    (h1 : ∀ r ∈ rows, truncHour r.timestamp = r.timestamp)
    (h2 : (rows.map (·.timestamp)).Nodup) :
    aggregateToHourly rows = (rows.map rowToRecord).insertionSort hdLe := by
  unfold aggregateToHourly
  congr 1
  have hkeys : rows.map hourKey = rows.map (·.timestamp) :=
    List.map_congr_left (fun r hr => by unfold hourKey; rw [h1 r hr])
  unfold bucketedKeys
  rw [hkeys, firstOcc_eq_self _ h2, List.map_map]
  apply List.map_congr_left
  intro r hr
  have hkk : hourKey r = r.timestamp := by
    unfold hourKey
    rw [h1 r hr]
  have hnd : (rows.map hourKey).Nodup := by
    rw [hkeys]
    exact h2
  have hb : bucket hourKey rows (r.timestamp) = [r] := by
    have hsingle := filter_key_eq_single hourKey rows hnd r hr
    unfold bucket
    rw [← hkk]
    exact hsingle
  show hourRecord rows r.timestamp = rowToRecord r
  unfold hourRecord rowToRecord
  rw [hb]
  simp [ratSum, jsMax, jsMin]

/-- Claim C4: on hour-aligned, one-reading-per-hour input, aggregation
yields one record per reading with avg = min = max = that reading's value,
and re-aggregating those records' values reproduces the same records. -/
theorem c4_aggregate_idempotent (rows : List TelemetryRow)
    (h1 : ∀ r ∈ rows, truncHour r.timestamp = r.timestamp)
    (h2 : (rows.map (·.timestamp)).Nodup) :
    aggregateToHourly rows = (rows.map rowToRecord).insertionSort hdLe ∧
    aggregateToHourly ((aggregateToHourly rows).map recordToRow) =
      aggregateToHourly rows := by
  have hA := aggregate_aligned rows h1 h2
  refine ⟨hA, ?_⟩
  set S := (rows.map rowToRecord).insertionSort hdLe with hS
  have hperm : List.Perm S (rows.map rowToRecord) := List.perm_insertionSort hdLe _
  have hmapeq : (rows.map rowToRecord).map recordToRow = rows := by
    rw [List.map_map]
    exact (List.map_congr_left (fun r _ => recordToRow_rowToRecord r)).trans
      (List.map_id rows)
  have hpermrows : List.Perm (S.map recordToRow) rows := by
    have hp := hperm.map recordToRow
    rw [hmapeq] at hp
    exact hp
  have h1' : ∀ r ∈ S.map recordToRow, truncHour r.timestamp = r.timestamp :=
    fun r hr => h1 r (hpermrows.mem_iff.mp hr)
  have h2' : ((S.map recordToRow).map (·.timestamp)).Nodup :=
    ((hpermrows.map (·.timestamp)).nodup_iff).mpr h2
  have hA' := aggregate_aligned (S.map recordToRow) h1' h2'
  rw [hA, hA']
  have hSS : (S.map recordToRow).map rowToRecord = S := by
    have hpt : ∀ h ∈ S, rowToRecord (recordToRow h) = h := by
      intro h hh
      obtain ⟨r, _, rfl⟩ := List.mem_map.mp (hperm.mem_iff.mp hh)
      rfl
    rw [List.map_map]
    exact (List.map_congr_left (fun h hh => hpt h hh)).trans (List.map_id S)
  rw [hSS]
  exact List.Sorted.insertionSort_eq (List.sorted_insertionSort hdLe _)

theorem c4_aggregate_idempotent_witness :
    aggregateToHourly [⟨3600000, 4, 5, 6⟩, ⟨0, 1, 2, 3⟩] =
      (([⟨3600000, 4, 5, 6⟩, ⟨0, 1, 2, 3⟩] : List TelemetryRow).map rowToRecord).insertionSort
        hdLe ∧
    aggregateToHourly
        ((aggregateToHourly [⟨3600000, 4, 5, 6⟩, ⟨0, 1, 2, 3⟩]).map recordToRow) =
      aggregateToHourly [⟨3600000, 4, 5, 6⟩, ⟨0, 1, 2, 3⟩] :=
  c4_aggregate_idempotent [⟨3600000, 4, 5, 6⟩, ⟨0, 1, 2, 3⟩] (by decide) (by decide)

/-! ### Merger stability (C6) -/

lemma filter_orderedInsert_ts (T : Int) (a : TelemetryRow) (s : List TelemetryRow) :
    (s.orderedInsert tsLe a).filter (fun r => decide (r.timestamp = T)) =
      if a.timestamp = T then a :: s.filter (fun r => decide (r.timestamp = T))
      else s.filter (fun r => decide (r.timestamp = T)) := by
  induction s with
  | nil =>
    by_cases ha : a.timestamp = T <;> simp [List.orderedInsert, List.filter, ha]
  | cons b s ih =>
    rw [List.orderedInsert]
    by_cases hab : tsLe a b
    · rw [if_pos hab]
      by_cases ha : a.timestamp = T <;> simp [List.filter_cons, ha]
    · rw [if_neg hab]
      have hba : b.timestamp < a.timestamp := by
        unfold tsLe at hab
        omega
      rw [List.filter_cons, List.filter_cons]
      by_cases hb : b.timestamp = T
      · have ha : ¬a.timestamp = T := by omega
        simp [hb, ha, ih]
      · by_cases ha : a.timestamp = T <;> simp [hb, ha, ih]

lemma filter_insertionSort_ts (T : Int) (l : List TelemetryRow) :
    (l.insertionSort tsLe).filter (fun r => decide (r.timestamp = T)) =
      l.filter (fun r => decide (r.timestamp = T)) := by
  induction l with
  | nil => rfl
  | cons a l ih =>
    rw [List.insertionSort, filter_orderedInsert_ts, List.filter_cons]
    by_cases ha : a.timestamp = T <;> simp [ha, ih]

/-- Claim C6: the merger concatenates per-file extractions in input order
and fully sorts by timestamp with a stable sort — nothing is de-duplicated
or dropped (output length is the sum of per-file counts), the output is
sorted ascending, and readings of any fixed timestamp appear exactly as in
the concatenation order. -/
theorem c6_merge_stable_sort (jsParse : String → JSDate) (dsStr : Int → String) (now : Int)
    (m : ColumnMapping) (files : List Grid) :
    (parseExcelFilesData jsParse dsStr now m files).length =
      (files.map (fun g => (extractFile jsParse dsStr now m g).length)).sum ∧
    List.Sorted tsLe (parseExcelFilesData jsParse dsStr now m files) ∧
    ∀ T : Int,
      (parseExcelFilesData jsParse dsStr now m files).filter
          (fun r => decide (r.timestamp = T)) =
        ((files.map (extractFile jsParse dsStr now m)).flatten).filter
          (fun r => decide (r.timestamp = T)) := by
  refine ⟨?_, ?_, ?_⟩
  · unfold parseExcelFilesData
    rw [List.length_insertionSort, List.length_flatten, List.map_map]
    rfl
  · exact List.sorted_insertionSort tsLe _
  · intro T
    unfold parseExcelFilesData
    exact filter_insertionSort_ts T _
